import Mathlib

/-!
Verification of the pebble overlord state-backend fragment and CLI helpers.

The repository exposes two source files: the overlord state backend adapter
(`internal/overlord/backend.go`) and the CLI main package (with
`termSizeImpl`).  The Overlord / State / Task / Change / TaskRunner core as
well as `osutil.AtomicWriteFile` are not part of the visible sources; where a
claim depends on them, the corresponding definition is modelled from the
specification and marked as such in its doc comment.
-/

namespace Pebble

/-- Task status state machine states, from the spec's data model. -/
inductive Status where
  | Do
  | Doing
  | Done
  | Error
  | Undoing
  | Undone
  | Abort
  | Hold
deriving DecidableEq, Repr

/-- Error kinds named by the spec's error handling design. -/
inductive ErrorKind where
  | NotFound
  | CorruptState
  | CyclicDependency
  | HandlerMissing
  | HandlerFailed
  | ChainedCheckpointFailure
deriving DecidableEq, Repr

/-- Restart kinds. Modelled from the spec: the `restart` package is not under
the visible sources; the spec says the kind distinguishes reasons such as a
normal restart, a fatal daemon restart and an update-triggered restart. -/
inductive RestartType where
  | restartDaemon
  | restartSystem
  | restartUnset
deriving DecidableEq, Repr

/-! ## Terminal size (`termSizeImpl` in the CLI main package) -/

/-- Environment observed by `termSizeImpl`: whether `Stdout` is an `os.File`,
what `terminal.GetSize` reports for it, and the integer values parsed from the
`COLUMNS` and `LINES` environment variables (`strconv.Atoi` yields 0 on a
parse failure, so arbitrary integers cover all cases). -/
structure TermEnv where
  stdoutIsFile : Bool
  getSizeWidth : Int
  getSizeHeight : Int
  columns : Int
  lines : Int

/-- Width of `termSizeImpl` before the final clamping step: the terminal
width when `Stdout` is a file (the Go zero value 0 otherwise), replaced by
the `COLUMNS` value when not positive. -/
def rawWidth (e : TermEnv) : Int :=
  let w : Int := if e.stdoutIsFile then e.getSizeWidth else 0
  if w ≤ 0 then e.columns else w

/-- Height of `termSizeImpl` before the final clamping step, symmetric to
`rawWidth` with the `LINES` variable. -/
def rawHeight (e : TermEnv) : Int :=
  let h : Int := if e.stdoutIsFile then e.getSizeHeight else 0
  if h ≤ 0 then e.lines else h

/-- Embedding of `termSizeImpl` from the CLI main package. -/
def termSizeImpl (e : TermEnv) : Int × Int :=
  let width := rawWidth e
  let height := rawHeight e
  let width := if width < 40 then 80 else width
  let height := if height < 15 then 25 else height
  (width, height)

/-! ## File system model and `AtomicWriteFile` -/

/-- A file on disk: its byte content and its Unix permission mode. -/
structure FileRec where
  content : List Nat
  perm : Nat
deriving DecidableEq, Repr

/-- A file system: a partial map from path to file. -/
def FS : Type := String → Option FileRec

/-- The temporary path used by the write-to-temp-then-rename sequence. -/
def tmpPath (path : String) : String := path ++ (".tmp")

/-- File system after the temporary file has been written (the first phase of
an atomic write). -/
def writeTempPhase (fs : FS) (path : String) (content : List Nat) (perm : Nat) : FS :=
  fun p => if p = tmpPath path then some ⟨content, perm⟩ else fs p

/-- File system after the temporary file has been renamed over the target
path (the second phase of an atomic write). -/
def renamePhase (fs : FS) (path : String) : FS :=
  fun p =>
    if p = path then fs (tmpPath path)
    else if p = tmpPath path then none
    else fs p

/-- Possible outcomes of one atomic write attempt: full success, a crash or
I/O error after only `written` bytes of the temporary file were written, or a
crash or I/O error after the temporary file was complete but before the
rename. -/
inductive WriteOutcome where
  | success
  | failTemp (written : Nat)
  | failBeforeRename
deriving DecidableEq, Repr

/-- Result of an atomic write attempt: the resulting file system, whether the
call returned without error, and the permission mode and flags the call was
made with. -/
structure WriteResult where
  fs : FS
  ok : Bool
  callPerm : Nat
  callFlags : Nat

/-- Modelled from the spec: `osutil.AtomicWriteFile` is not under the visible
sources; the spec requires write-to-temp-then-rename semantics, never an
in-place overwrite.  The outcome enumerates every point at which the process
may crash or the write may fail. -/
def atomicWriteFile (o : WriteOutcome) (fs : FS) (path : String)
    (content : List Nat) (perm : Nat) (flags : Nat) : WriteResult :=
  match o with
  | .success =>
      ⟨renamePhase (writeTempPhase fs path content perm) path, true, perm, flags⟩
  | .failTemp written =>
      ⟨writeTempPhase fs path (content.take written) perm, false, perm, flags⟩
  | .failBeforeRename =>
      ⟨writeTempPhase fs path content perm, false, perm, flags⟩

/-! ## The overlord state backend (`internal/overlord/backend.go`) -/

/-- Embedding of the `overlordStateBackend` struct: the state file path and
the two configured callbacks.  The callbacks' result types are abstract since
their bodies live outside the visible sources. -/
structure overlordStateBackend (α β : Type) where
  path : String
  ensureBefore : Int → α
  requestRestart : RestartType → β

/-- Embedding of `overlordStateBackend.Checkpoint`: it calls
`osutil.AtomicWriteFile(osb.path, data, 0600, 0)` and returns its error. -/
def overlordStateBackend.Checkpoint {α β : Type} (osb : overlordStateBackend α β)
    (o : WriteOutcome) (fs : FS) (data : List Nat) : WriteResult :=
  atomicWriteFile o fs osb.path data 0o600 0

/-- Embedding of `overlordStateBackend.EnsureBefore`: it calls the configured
`ensureBefore` function with `d`. -/
def overlordStateBackend.EnsureBefore {α β : Type} (osb : overlordStateBackend α β)
    (d : Int) : α :=
  osb.ensureBefore d

/-- Modelled from the spec: the `RequestRestart` method body is not under the
visible sources (only the `requestRestart` field is); per the spec it signals
a restart by forwarding the typed kind to the configured restart function. -/
def overlordStateBackend.RequestRestart {α β : Type} (osb : overlordStateBackend α β)
    (t : RestartType) : β :=
  osb.requestRestart t

/-- Modelled from the spec: the Overlord schedules the next Ensure run at
`min(current scheduled time, now + d)` when `EnsureBefore d` is requested. -/
def overlordEnsureNext (nextRun now d : Int) : Int :=
  min nextRun (now + d)

/-- Effects the Overlord can perform when a restart is requested. -/
inductive OverlordEffect where
  | callBackendRestart (t : RestartType)
  | processExit (code : Int)
deriving DecidableEq, Repr

/-- Modelled from the spec: the Overlord forwards a restart request to the
backend and never calls process-exit directly. -/
def overlordRequestRestart (t : RestartType) : List OverlordEffect :=
  [OverlordEffect.callBackendRestart t]

/-! ## The Ensure loop's checkpointing -/

/-- State of the Ensure loop: the file system, the log of error kinds
recorded so far, and whether the loop has stopped. -/
structure LoopState where
  fs : FS
  log : List ErrorKind
  stopped : Bool

/-- Modelled from the spec: one Ensure pass ends by checkpointing the
serialized state through the backend; a checkpoint failure is logged as a
`ChainedCheckpointFailure` and retried on the next pass, and never stops the
loop. -/
def ensurePass {α β : Type} (osb : overlordStateBackend α β) (o : WriteOutcome)
    (snapshot : List Nat) (st : LoopState) : LoopState :=
  if st.stopped then st
  else
    let r := osb.Checkpoint o st.fs snapshot
    if r.ok then ⟨r.fs, st.log, false⟩
    else ⟨r.fs, st.log ++ [ErrorKind.ChainedCheckpointFailure], false⟩

/-! ## State serialization (snapshot round trip) -/

/-- A task record as persisted in the snapshot.  Modelled from the spec: the
State/Task code is not under the visible sources; per the spec a task has an
ID, a kind, a summary, a status, progress counters, a lane, an owning change
and ID-based wait-for edges. -/
structure TaskRec where
  id : Nat
  kind : String
  summary : String
  status : Status
  progressCurrent : Nat
  progressTotal : Nat
  lane : Nat
  changeId : Nat
  waitFor : List Nat
deriving DecidableEq, Repr

/-- A change record as persisted in the snapshot.  Modelled from the spec:
a change has an ID, a kind, a summary and its member task IDs. -/
structure ChangeRec where
  id : Nat
  kind : String
  summary : String
  taskIds : List Nat
deriving DecidableEq, Repr

/-- The in-memory State: task map, change map, custom data and the
last-allocated ID counter.  Modelled from the spec. -/
structure State where
  tasks : List TaskRec
  changes : List ChangeRec
  data : List (String × String)
  lastId : Nat
deriving DecidableEq, Repr

/-- The single structured snapshot document: task map, change map,
custom-data map and last-allocated ID.  Modelled from the spec's persisted
state layout. -/
structure Snapshot where
  tasks : List TaskRec
  changes : List ChangeRec
  data : List (String × String)
  lastId : Nat
deriving DecidableEq, Repr

/-- IDs of the tasks in a snapshot's task list. -/
def taskIdsOf (ts : List TaskRec) : List Nat := ts.map (fun t => t.id)

/-- IDs of the changes in a snapshot's change list. -/
def changeIdsOf (cs : List ChangeRec) : List Nat := cs.map (fun c => c.id)

/-- Modelled from the spec: serializing the State wholesale into the single
structured snapshot document. -/
def marshal (s : State) : Snapshot := ⟨s.tasks, s.changes, s.data, s.lastId⟩

/-- Structural validation of a snapshot: no duplicate task or change IDs,
every wait-for edge and change membership references an existing task, and
every task's owning change exists. -/
def snapshotConsistent (sn : Snapshot) : Bool :=
  decide (taskIdsOf sn.tasks).Nodup &&
  decide (changeIdsOf sn.changes).Nodup &&
  sn.tasks.all (fun t =>
    t.waitFor.all (fun r => decide (r ∈ taskIdsOf sn.tasks)) &&
    decide (t.changeId ∈ changeIdsOf sn.changes)) &&
  sn.changes.all (fun c => c.taskIds.all (fun r => decide (r ∈ taskIdsOf sn.tasks)))

/-- Modelled from the spec: deserializing a snapshot reconstructs identical
ID-to-entity mappings and dependency edges, and fails with a `CorruptState`
kind on structural inconsistency. -/
def unmarshal (sn : Snapshot) : Except ErrorKind State :=
  if snapshotConsistent sn then Except.ok ⟨sn.tasks, sn.changes, sn.data, sn.lastId⟩
  else Except.error ErrorKind.CorruptState

/-- A dangling ID reference in a snapshot: a wait-for edge to a missing task,
a task owned by a missing change, or a change member that is a missing task. -/
def HasDanglingRef (sn : Snapshot) : Prop :=
  (∃ t ∈ sn.tasks,
      (∃ r ∈ t.waitFor, r ∉ taskIdsOf sn.tasks) ∨ t.changeId ∉ changeIdsOf sn.changes) ∨
  (∃ c ∈ sn.changes, ∃ r ∈ c.taskIds, r ∉ taskIdsOf sn.tasks)

/-- A duplicate entity ID in a snapshot. -/
def HasDupId (sn : Snapshot) : Prop :=
  ¬ (taskIdsOf sn.tasks).Nodup ∨ ¬ (changeIdsOf sn.changes).Nodup

/-- A structurally consistent State: marshalling it yields a snapshot with
neither dangling references nor duplicate IDs. -/
def StateConsistent (s : State) : Prop :=
  ¬ HasDanglingRef (marshal s) ∧ ¬ HasDupId (marshal s)

/-! ## Change status derivation -/

/-- Whether a status counts as actively running (`Doing` or `Undoing`). -/
def isActiveB (s : Status) : Bool := s == Status.Doing || s == Status.Undoing

/-- Modelled from the spec's derivation (first match wins over the member
task statuses): empty change is `Done`; any `Doing`/`Undoing` member makes it
`Doing`; else any `Error` member makes it `Error`; else any `Undone`/`Hold`
member with no `Do` member yields the worst terminal outcome; else all
`Done` is `Done`; otherwise `Do`. -/
def changeStatus (ss : List Status) : Status :=
  if ss.isEmpty then Status.Done
  else if ss.any isActiveB then Status.Doing
  else if ss.any (fun s => s == Status.Error) then Status.Error
  else if (ss.any (fun s => s == Status.Undone || s == Status.Hold)) &&
          !(ss.any (fun s => s == Status.Do)) then
    (if ss.any (fun s => s == Status.Undone) then Status.Undone else Status.Hold)
  else if ss.all (fun s => s == Status.Done) then Status.Done
  else Status.Do

/-! ## TaskRunner scheduling steps -/

/-- Pointwise update of a status assignment. -/
def upd (st : Nat → Status) (t : Nat) (s : Status) : Nat → Status :=
  fun u => if u = t then s else st u

/-- Modelled from the spec: one TaskRunner transition over the status
assignment.  A task starts (`Do` to `Doing`) only when every task in its
wait-for set has reached `Done` and its non-zero lane has no running task;
the other transitions drive the task state machine (completion, failure,
undo cascade, abort and hold). -/
inductive RunnerStep (waitFor : Nat → List Nat) (lane : Nat → Nat) :
    (Nat → Status) → (Nat → Status) → Prop where
  | start (st : Nat → Status) (t : Nat)
      (hdo : st t = Status.Do)
      (hready : ∀ u ∈ waitFor t, st u = Status.Done)
      (hlane : lane t ≠ 0 → ∀ u, lane u = lane t → st u ≠ Status.Doing) :
      RunnerStep waitFor lane st (upd st t Status.Doing)
  | finishDone (st : Nat → Status) (t : Nat) (h : st t = Status.Doing) :
      RunnerStep waitFor lane st (upd st t Status.Done)
  | finishError (st : Nat → Status) (t : Nat) (h : st t = Status.Doing) :
      RunnerStep waitFor lane st (upd st t Status.Error)
  | startUndo (st : Nat → Status) (t : Nat) (h : st t = Status.Done) :
      RunnerStep waitFor lane st (upd st t Status.Undoing)
  | finishUndo (st : Nat → Status) (t : Nat) (h : st t = Status.Undoing) :
      RunnerStep waitFor lane st (upd st t Status.Undone)
  | abortTask (st : Nat → Status) (t : Nat) (h : st t = Status.Do) :
      RunnerStep waitFor lane st (upd st t Status.Abort)
  | holdTask (st : Nat → Status) (t : Nat) (h : st t = Status.Do) :
      RunnerStep waitFor lane st (upd st t Status.Hold)

/-! ## Wait-for edge insertion and cycle detection -/

/-- The edge relation of a dependency graph given as a list of directed
edges. -/
def edgeRel (edges : List (Nat × Nat)) : Nat → Nat → Prop :=
  fun x y => (x, y) ∈ edges

/-- Direct successors of a node in the dependency graph. -/
def succs (edges : List (Nat × Nat)) (a : Nat) : Finset Nat :=
  ((edges.filter (fun e => e.1 == a)).map Prod.snd).toFinset

/-- One expansion step of the reachable set: keep the set and add every
direct successor of its members. -/
def stepSet (edges : List (Nat × Nat)) (s : Finset Nat) : Finset Nat :=
  s ∪ s.biUnion (succs edges)

/-- The set reachable from `a` within `n` expansion steps. -/
def reachSet (edges : List (Nat × Nat)) (a : Nat) (n : Nat) : Finset Nat :=
  (stepSet edges)^[n] {a}

/-- All nodes that can ever appear in a reachable-set computation from `a`:
`a` itself and every edge target. -/
def nodePool (edges : List (Nat × Nat)) (a : Nat) : Finset Nat :=
  insert a (edges.map Prod.snd).toFinset

/-- Decidable reachability check: expand the reachable set as many times as
there are candidate nodes, which saturates it. -/
def reachableB (edges : List (Nat × Nat)) (a b : Nat) : Bool :=
  decide (b ∈ reachSet edges a (nodePool edges a).card)

/-- Modelled from the spec: `Task.WaitFor(other)` adds the directed edge
`t → other` to the dependency graph, first rejecting it with
`CyclicDependency` when a reachability check finds that `other` already
reaches `t` (so the new edge would close a cycle). -/
def waitForInsert (edges : List (Nat × Nat)) (t other : Nat) :
    Except ErrorKind (List (Nat × Nat)) :=
  if reachableB edges other t then Except.error ErrorKind.CyclicDependency
  else Except.ok ((t, other) :: edges)

/-! ## Helper lemmas -/

theorem tmpPath_ne (p : String) : tmpPath p ≠ p := by
  intro h
  have hl : (tmpPath p).length = p.length + 4 := by
    rw [tmpPath, String.length_append]
    rfl
  rw [h] at hl
  omega

/-- C10: for every environment (any terminal size and any values of the
COLUMNS and LINES environment variables), `termSizeImpl` returns a width of
at least 40 and a height of at least 15; a computed width below 40 is
replaced by 80, and a computed height below 15 is replaced by 25. -/
theorem c10_term_size_bounds (e : TermEnv) :
    40 ≤ (termSizeImpl e).1 ∧ 15 ≤ (termSizeImpl e).2 ∧
    (termSizeImpl e).1 = (if rawWidth e < 40 then 80 else rawWidth e) ∧
    (termSizeImpl e).2 = (if rawHeight e < 15 then 25 else rawHeight e) := by
  refine ⟨?_, ?_, rfl, rfl⟩ <;> simp only [termSizeImpl] <;> split <;> omega

/-- C9: the backend's `Checkpoint` writes the state file with Unix permission
mode 0600 and flags 0 (read/write for the owning user only, so the persisted
state is never group- or world-readable), and a successful write installs the
data with that mode at the backend's path. -/
theorem c9_checkpoint_mode {α β : Type} (osb : overlordStateBackend α β)
    (o : WriteOutcome) (fs : FS) (data : List Nat) :
    (osb.Checkpoint o fs data).callPerm = 0o600 ∧
    (osb.Checkpoint o fs data).callFlags = 0 ∧
    (osb.Checkpoint o fs data).callPerm % 8 = 0 ∧
    ((osb.Checkpoint o fs data).callPerm / 8) % 8 = 0 ∧
    (osb.Checkpoint WriteOutcome.success fs data).fs osb.path = some ⟨data, 0o600⟩ := by
  have hperm : ∀ o' : WriteOutcome, (osb.Checkpoint o' fs data).callPerm = 0o600 := by
    intro o'
    cases o' <;> rfl
  have hflags : (osb.Checkpoint o fs data).callFlags = 0 := by
    cases o <;> rfl
  refine ⟨hperm o, hflags, ?_, ?_, ?_⟩
  · rw [hperm o]
  · rw [hperm o]
  · show renamePhase (writeTempPhase fs osb.path data 0o600) osb.path osb.path = _
    rw [renamePhase, writeTempPhase]
    simp

/-- C1: for every snapshot write through the backend's `Checkpoint`, the
write is atomic: whatever point the write fails or crashes at, the
previously valid snapshot at the backend's path stays readable and
unchanged, a successful write installs exactly the full new data, and the
path never holds anything other than those two. -/
theorem c1_checkpoint_atomic {α β : Type} (osb : overlordStateBackend α β)
    (o : WriteOutcome) (fs : FS) (data : List Nat) (old : FileRec)
    (h : fs osb.path = some old) :
    ((osb.Checkpoint o fs data).ok = false →
      (osb.Checkpoint o fs data).fs osb.path = some old) ∧
    ((osb.Checkpoint o fs data).ok = true →
      (osb.Checkpoint o fs data).fs osb.path = some ⟨data, 0o600⟩) ∧
    ((osb.Checkpoint o fs data).fs osb.path = some old ∨
      (osb.Checkpoint o fs data).fs osb.path = some ⟨data, 0o600⟩) := by
  have hne := tmpPath_ne osb.path
  cases o with
  | success =>
      refine ⟨fun hko => by simp [overlordStateBackend.Checkpoint, atomicWriteFile] at hko,
        fun _ => ?_, Or.inr ?_⟩ <;>
      · show renamePhase (writeTempPhase fs osb.path data 0o600) osb.path osb.path = _
        rw [renamePhase, writeTempPhase]
        simp
  | failTemp written =>
      have hfs : (osb.Checkpoint (WriteOutcome.failTemp written) fs data).fs osb.path
          = some old := by
        show writeTempPhase fs osb.path (data.take written) 0o600 osb.path = _
        rw [writeTempPhase]
        rw [if_neg (fun hc => hne hc.symm)]
        exact h
      refine ⟨fun _ => hfs, fun hko => ?_, Or.inl hfs⟩
      simp [overlordStateBackend.Checkpoint, atomicWriteFile] at hko
  | failBeforeRename =>
      have hfs : (osb.Checkpoint WriteOutcome.failBeforeRename fs data).fs osb.path
          = some old := by
        show writeTempPhase fs osb.path data 0o600 osb.path = _
        rw [writeTempPhase]
        rw [if_neg (fun hc => hne hc.symm)]
        exact h
      refine ⟨fun _ => hfs, fun hko => ?_, Or.inl hfs⟩
      simp [overlordStateBackend.Checkpoint, atomicWriteFile] at hko

theorem c1_checkpoint_atomic_witness :
    ((overlordStateBackend.Checkpoint
        (⟨("state"), fun _ => (), fun _ => ()⟩ : overlordStateBackend Unit Unit)
        WriteOutcome.failBeforeRename
        (fun p => if p = ("state") then some ⟨[7], 0o600⟩ else none) [1, 2]).ok = false →
      (overlordStateBackend.Checkpoint
        (⟨("state"), fun _ => (), fun _ => ()⟩ : overlordStateBackend Unit Unit)
        WriteOutcome.failBeforeRename
        (fun p => if p = ("state") then some ⟨[7], 0o600⟩ else none) [1, 2]).fs
        ("state") = some ⟨[7], 0o600⟩) ∧
    ((overlordStateBackend.Checkpoint
        (⟨("state"), fun _ => (), fun _ => ()⟩ : overlordStateBackend Unit Unit)
        WriteOutcome.failBeforeRename
        (fun p => if p = ("state") then some ⟨[7], 0o600⟩ else none) [1, 2]).ok = true →
      (overlordStateBackend.Checkpoint
        (⟨("state"), fun _ => (), fun _ => ()⟩ : overlordStateBackend Unit Unit)
        WriteOutcome.failBeforeRename
        (fun p => if p = ("state") then some ⟨[7], 0o600⟩ else none) [1, 2]).fs
        ("state") = some ⟨[1, 2], 0o600⟩) ∧
    ((overlordStateBackend.Checkpoint
        (⟨("state"), fun _ => (), fun _ => ()⟩ : overlordStateBackend Unit Unit)
        WriteOutcome.failBeforeRename
        (fun p => if p = ("state") then some ⟨[7], 0o600⟩ else none) [1, 2]).fs
        ("state") = some ⟨[7], 0o600⟩ ∨
      (overlordStateBackend.Checkpoint
        (⟨("state"), fun _ => (), fun _ => ()⟩ : overlordStateBackend Unit Unit)
        WriteOutcome.failBeforeRename
        (fun p => if p = ("state") then some ⟨[7], 0o600⟩ else none) [1, 2]).fs
        ("state") = some ⟨[1, 2], 0o600⟩) :=
  c1_checkpoint_atomic
    (⟨("state"), fun _ => (), fun _ => ()⟩ : overlordStateBackend Unit Unit)
    WriteOutcome.failBeforeRename
    (fun p => if p = ("state") then some ⟨[7], 0o600⟩ else none) [1, 2]
    ⟨[7], 0o600⟩ (by decide)

/-- C6: a failing `Checkpoint` is reported as an error return, logged as a
`ChainedCheckpointFailure` and retried on the next pass; it never stops the
Ensure loop, and the last good on-disk copy at the backend's path stays
valid. -/
theorem c6_checkpoint_failure_nonfatal {α β : Type} (osb : overlordStateBackend α β)
    (o : WriteOutcome) (snapshot : List Nat) (st : LoopState) (old : FileRec)
    (hrun : st.stopped = false) (hold : st.fs osb.path = some old) :
    (ensurePass osb o snapshot st).stopped = false ∧
    (o ≠ WriteOutcome.success →
      (osb.Checkpoint o st.fs snapshot).ok = false ∧
      (ensurePass osb o snapshot st).fs osb.path = some old ∧
      (ensurePass osb o snapshot st).log = st.log ++ [ErrorKind.ChainedCheckpointFailure]) ∧
    (ensurePass osb WriteOutcome.success snapshot (ensurePass osb o snapshot st)).fs
      osb.path = some ⟨snapshot, 0o600⟩ := by
  have hne := tmpPath_ne osb.path
  have hcp : ∀ (fs : FS), (osb.Checkpoint WriteOutcome.success fs snapshot).fs osb.path
      = some ⟨snapshot, 0o600⟩ := by
    intro fs
    show renamePhase (writeTempPhase fs osb.path snapshot 0o600) osb.path osb.path = _
    rw [renamePhase, writeTempPhase]
    simp
  cases o with
  | success =>
      rw [ensurePass, if_neg (by rw [hrun]; exact Bool.false_ne_true)]
      have hok : (osb.Checkpoint WriteOutcome.success st.fs snapshot).ok = true := rfl
      rw [if_pos hok]
      refine ⟨rfl, fun hne' => absurd rfl hne', ?_⟩
      exact hcp _
  | failTemp written =>
      rw [ensurePass, if_neg (by rw [hrun]; exact Bool.false_ne_true)]
      have hko : (osb.Checkpoint (WriteOutcome.failTemp written) st.fs snapshot).ok
          = false := rfl
      rw [if_neg (by rw [hko]; exact Bool.false_ne_true)]
      have hfs : (osb.Checkpoint (WriteOutcome.failTemp written) st.fs snapshot).fs
          osb.path = some old := by
        show writeTempPhase st.fs osb.path (snapshot.take written) 0o600 osb.path = _
        rw [writeTempPhase, if_neg (fun hc => hne hc.symm)]
        exact hold
      refine ⟨rfl, fun _ => ⟨hko, hfs, rfl⟩, ?_⟩
      exact hcp _
  | failBeforeRename =>
      rw [ensurePass, if_neg (by rw [hrun]; exact Bool.false_ne_true)]
      have hko : (osb.Checkpoint WriteOutcome.failBeforeRename st.fs snapshot).ok
          = false := rfl
      rw [if_neg (by rw [hko]; exact Bool.false_ne_true)]
      have hfs : (osb.Checkpoint WriteOutcome.failBeforeRename st.fs snapshot).fs
          osb.path = some old := by
        show writeTempPhase st.fs osb.path snapshot 0o600 osb.path = _
        rw [writeTempPhase, if_neg (fun hc => hne hc.symm)]
        exact hold
      refine ⟨rfl, fun _ => ⟨hko, hfs, rfl⟩, ?_⟩
      exact hcp _

theorem c6_checkpoint_failure_nonfatal_witness :
    (Pebble.ensurePass
      (⟨("state"), fun _ => (), fun _ => ()⟩ : overlordStateBackend Unit Unit)
      (WriteOutcome.failTemp 1) [5]
      ⟨fun p => if p = ("state") then some ⟨[7], 0o600⟩ else none, [], false⟩).stopped
      = false ∧
    (WriteOutcome.failTemp 1 ≠ WriteOutcome.success →
      ((⟨("state"), fun _ => (), fun _ => ()⟩ : overlordStateBackend Unit Unit).Checkpoint
        (WriteOutcome.failTemp 1)
        (fun p => if p = ("state") then some ⟨[7], 0o600⟩ else none) [5]).ok = false ∧
      (Pebble.ensurePass
        (⟨("state"), fun _ => (), fun _ => ()⟩ : overlordStateBackend Unit Unit)
        (WriteOutcome.failTemp 1) [5]
        ⟨fun p => if p = ("state") then some ⟨[7], 0o600⟩ else none, [], false⟩).fs
        ("state") = some ⟨[7], 0o600⟩ ∧
      (Pebble.ensurePass
        (⟨("state"), fun _ => (), fun _ => ()⟩ : overlordStateBackend Unit Unit)
        (WriteOutcome.failTemp 1) [5]
        ⟨fun p => if p = ("state") then some ⟨[7], 0o600⟩ else none, [], false⟩).log
        = [] ++ [ErrorKind.ChainedCheckpointFailure]) ∧
    (Pebble.ensurePass
      (⟨("state"), fun _ => (), fun _ => ()⟩ : overlordStateBackend Unit Unit)
      WriteOutcome.success [5]
      (Pebble.ensurePass
        (⟨("state"), fun _ => (), fun _ => ()⟩ : overlordStateBackend Unit Unit)
        (WriteOutcome.failTemp 1) [5]
        ⟨fun p => if p = ("state") then some ⟨[7], 0o600⟩ else none, [], false⟩)).fs
      ("state") = some ⟨[5], 0o600⟩ :=
  c6_checkpoint_failure_nonfatal
    (⟨("state"), fun _ => (), fun _ => ()⟩ : overlordStateBackend Unit Unit)
    (WriteOutcome.failTemp 1) [5]
    ⟨fun p => if p = ("state") then some ⟨[7], 0o600⟩ else none, [], false⟩
    ⟨[7], 0o600⟩ rfl (by decide)

/-- C7: the backend's `EnsureBefore` forwards the duration unchanged to the
configured `ensureBefore` function, and the Overlord's scheduling of the
next Ensure run is `min(current scheduled time, now + d)`: never later than
`d` from now, never later than the previously scheduled time, and equal to
one of the two. -/
theorem c7_ensure_before {α β : Type} (osb : overlordStateBackend α β) (d : Int) :
    osb.EnsureBefore d = osb.ensureBefore d ∧
    ∀ nextRun now : Int,
      overlordEnsureNext nextRun now d ≤ now + d ∧
      overlordEnsureNext nextRun now d ≤ nextRun ∧
      (overlordEnsureNext nextRun now d = nextRun ∨
        overlordEnsureNext nextRun now d = now + d) :=
  ⟨rfl, fun _ _ => ⟨min_le_right _ _, min_le_left _ _, min_choice _ _⟩⟩

/-- C8: the backend exposes `RequestRestart`, which forwards the typed
restart kind unchanged to the configured restart function, and the Overlord
forwards restart requests to the backend without ever calling process-exit
directly. -/
theorem c8_request_restart {α β : Type} (osb : overlordStateBackend α β)
    (t : RestartType) :
    osb.RequestRestart t = osb.requestRestart t ∧
    overlordRequestRestart t = [OverlordEffect.callBackendRestart t] ∧
    ∀ code : Int, OverlordEffect.processExit code ∉ overlordRequestRestart t := by
  refine ⟨rfl, rfl, fun code hmem => ?_⟩
  rw [overlordRequestRestart, List.mem_singleton] at hmem
  exact OverlordEffect.noConfusion hmem

theorem snapshotConsistent_iff (sn : Snapshot) :
    snapshotConsistent sn = true ↔ ¬ HasDanglingRef sn ∧ ¬ HasDupId sn := by
  rw [snapshotConsistent, HasDanglingRef, HasDupId]
  simp only [Bool.and_eq_true, decide_eq_true_eq, List.all_eq_true]
  constructor
  · rintro ⟨⟨⟨hA, hB⟩, hT⟩, hC⟩
    constructor
    · rintro (⟨t, ht, hbad⟩ | ⟨c, hc, r, hr, hout⟩)
      · rcases hbad with ⟨r, hr, hout⟩ | hout
        · obtain ⟨hTw, hTc⟩ := hT t ht
          exact hout (hTw r hr)
        · obtain ⟨hTw, hTc⟩ := hT t ht
          exact hout hTc
      · exact hout (hC c hc r hr)
    · rintro (h | h)
      · exact h hA
      · exact h hB
  · rintro ⟨hnd, hdup⟩
    rw [not_or, not_not, not_not] at hdup
    refine ⟨⟨⟨hdup.1, hdup.2⟩, ?_⟩, ?_⟩
    · intro t ht
      constructor
      · intro r hr
        by_contra hout
        exact hnd (Or.inl ⟨t, ht, Or.inl ⟨r, hr, hout⟩⟩)
      · by_contra hout
        exact hnd (Or.inl ⟨t, ht, Or.inr hout⟩)
    · intro c hc r hr
      by_contra hout
      exact hnd (Or.inr ⟨c, hc, r, hr, hout⟩)

/-- C2: serializing a State to a snapshot and deserializing it back is the
identity on structurally consistent states (identical task and change sets,
statuses, dependency edges and custom data), and deserializing a snapshot
with a dangling ID reference or a duplicate ID fails with the CorruptState
error kind. -/
theorem c2_snapshot_roundtrip :
    (∀ s : State, StateConsistent s → unmarshal (marshal s) = Except.ok s) ∧
    (∀ sn : Snapshot, HasDanglingRef sn ∨ HasDupId sn →
      unmarshal sn = Except.error ErrorKind.CorruptState) := by
  constructor
  · intro s hs
    rw [unmarshal, if_pos ((snapshotConsistent_iff (marshal s)).mpr hs)]
    rfl
  · intro sn hbad
    rw [unmarshal, if_neg]
    intro hcons
    rcases (snapshotConsistent_iff sn).mp hcons with ⟨hnd, hdup⟩
    rcases hbad with h | h
    · exact hnd h
    · exact hdup h

theorem c2_snapshot_roundtrip_witness :
    unmarshal (marshal ⟨[⟨1, ("start"), ("start a service"), Status.Do, 0, 1, 0, 1, []⟩],
        [⟨1, ("restart"), ("restart services"), [1]⟩], [(("k"), ("v"))], 1⟩)
      = Except.ok ⟨[⟨1, ("start"), ("start a service"), Status.Do, 0, 1, 0, 1, []⟩],
        [⟨1, ("restart"), ("restart services"), [1]⟩], [(("k"), ("v"))], 1⟩ ∧
    unmarshal ⟨[⟨1, ("start"), ("start a service"), Status.Do, 0, 1, 0, 1, [2]⟩],
        [⟨1, ("restart"), ("restart services"), [1]⟩], [], 1⟩
      = Except.error ErrorKind.CorruptState :=
  ⟨c2_snapshot_roundtrip.1 _ (by
      constructor
      · simp only [StateConsistent, HasDanglingRef, marshal]
        decide
      · simp only [StateConsistent, HasDupId, marshal]
        decide),
   c2_snapshot_roundtrip.2 _ (Or.inl (by
      simp only [HasDanglingRef]
      decide))⟩

/-- C3: a Change's derived status equals Error if and only if at least one
member task has status Error and no member task has status Doing or
Undoing. -/
theorem c3_change_error_status (ss : List Status) :
    changeStatus ss = Status.Error ↔
      (∃ s ∈ ss, s = Status.Error) ∧ ∀ s ∈ ss, s ≠ Status.Doing ∧ s ≠ Status.Undoing := by
  rw [changeStatus]
  by_cases hempty : ss.isEmpty = true
  · rw [List.isEmpty_iff] at hempty
    subst hempty
    simp
  · rw [if_neg hempty]
    by_cases hact : ss.any isActiveB = true
    · rw [if_pos hact]
      constructor
      · intro h
        exact absurd h (by decide)
      · rintro ⟨-, hall⟩
        obtain ⟨s, hs, hsa⟩ := List.any_eq_true.mp hact
        rw [isActiveB, Bool.or_eq_true, beq_iff_eq, beq_iff_eq] at hsa
        have hno := hall s hs
        rcases hsa with h1 | h1
        · exact absurd h1 hno.1
        · exact absurd h1 hno.2
    · rw [if_neg hact]
      by_cases herr : (ss.any fun s => s == Status.Error) = true
      · rw [if_pos herr]
        constructor
        · intro _
          refine ⟨?_, ?_⟩
          · obtain ⟨s, hs, hsb⟩ := List.any_eq_true.mp herr
            exact ⟨s, hs, beq_iff_eq.mp hsb⟩
          · intro s hs
            constructor <;> intro heq <;>
              exact hact (List.any_eq_true.mpr ⟨s, hs, by rw [heq]; rfl⟩)
        · intro _
          rfl
      · rw [if_neg herr]
        have hne : ¬ ∃ s ∈ ss, s = Status.Error := by
          rintro ⟨s, hs, heq⟩
          exact herr (List.any_eq_true.mpr ⟨s, hs, by rw [heq]; rfl⟩)
        constructor
        · intro h
          exfalso
          split at h
          · split at h <;> exact absurd h (by decide)
          · split at h <;> exact absurd h (by decide)
        · rintro ⟨hex, -⟩
          exact absurd hex hne

/-- C4: whenever task T1 has a wait-for edge to task T2, no TaskRunner
transition lets T1 enter status Doing before T2 has reached status Done: any
step that moves T1 into Doing finds T2 already Done. -/
theorem c4_waitfor_ordering (waitFor : Nat → List Nat) (lane : Nat → Nat)
    (st st1 : Nat → Status) (hstep : RunnerStep waitFor lane st st1) (t1 t2 : Nat)
    (hmem : t2 ∈ waitFor t1) (hpre : st t1 ≠ Status.Doing)
    (hpost : st1 t1 = Status.Doing) :
    st t2 = Status.Done := by
  cases hstep with
  | start t hdo hready hlane =>
      simp only [upd] at hpost
      split at hpost
      · rename_i heq
        subst heq
        exact hready t2 hmem
      · exact absurd hpost hpre
  | finishDone t h =>
      simp only [upd] at hpost
      split at hpost
      · exact absurd hpost (by decide)
      · exact absurd hpost hpre
  | finishError t h =>
      simp only [upd] at hpost
      split at hpost
      · exact absurd hpost (by decide)
      · exact absurd hpost hpre
  | startUndo t h =>
      simp only [upd] at hpost
      split at hpost
      · exact absurd hpost (by decide)
      · exact absurd hpost hpre
  | finishUndo t h =>
      simp only [upd] at hpost
      split at hpost
      · exact absurd hpost (by decide)
      · exact absurd hpost hpre
  | abortTask t h =>
      simp only [upd] at hpost
      split at hpost
      · exact absurd hpost (by decide)
      · exact absurd hpost hpre
  | holdTask t h =>
      simp only [upd] at hpost
      split at hpost
      · exact absurd hpost (by decide)
      · exact absurd hpost hpre

theorem c4_waitfor_ordering_witness :
    (fun u : Nat => if u = 2 then Status.Done else Status.Do) 2 = Status.Done :=
  c4_waitfor_ordering (fun t => if t = 1 then [2] else []) (fun _ => 0)
    (fun u => if u = 2 then Status.Done else Status.Do)
    (upd (fun u => if u = 2 then Status.Done else Status.Do) 1 Status.Doing)
    (RunnerStep.start _ 1 rfl (by decide) (fun h0 => absurd rfl h0))
    1 2 (by simp) (by decide) (by rfl)

theorem mem_succs {edges : List (Nat × Nat)} {a b : Nat} :
    b ∈ succs edges a ↔ (a, b) ∈ edges := by
  rw [succs]
  simp only [List.mem_toFinset, List.mem_map, List.mem_filter, beq_iff_eq]
  constructor
  · rintro ⟨⟨x, y⟩, ⟨hmem, hx⟩, hy⟩
    simp only at hx hy
    subst hx
    subst hy
    exact hmem
  · intro h
    exact ⟨(a, b), ⟨h, rfl⟩, rfl⟩

theorem subset_stepSet (edges : List (Nat × Nat)) (s : Finset Nat) :
    s ⊆ stepSet edges s :=
  Finset.subset_union_left

theorem reachSet_succ (edges : List (Nat × Nat)) (src n : Nat) :
    reachSet edges src (n + 1) = stepSet edges (reachSet edges src n) :=
  Function.iterate_succ_apply' _ _ _

theorem mem_reachSet_self (edges : List (Nat × Nat)) (src n : Nat) :
    src ∈ reachSet edges src n := by
  induction n with
  | zero => simp [reachSet]
  | succ n ih =>
      rw [reachSet_succ]
      exact subset_stepSet _ _ ih

theorem reachSet_sound (edges : List (Nat × Nat)) (src : Nat) :
    ∀ n b, b ∈ reachSet edges src n → Relation.ReflTransGen (edgeRel edges) src b := by
  intro n
  induction n with
  | zero =>
      intro b hb
      simp [reachSet] at hb
      subst hb
      exact Relation.ReflTransGen.refl
  | succ n ih =>
      intro b hb
      rw [reachSet_succ, stepSet] at hb
      rcases Finset.mem_union.mp hb with h | h
      · exact ih b h
      · rcases Finset.mem_biUnion.mp h with ⟨x, hx, hbx⟩
        exact Relation.ReflTransGen.tail (ih x hx) (mem_succs.mp hbx)

theorem reachSet_subset_pool (edges : List (Nat × Nat)) (src n : Nat) :
    reachSet edges src n ⊆ nodePool edges src := by
  induction n with
  | zero =>
      intro b hb
      simp [reachSet] at hb
      subst hb
      exact Finset.mem_insert_self _ _
  | succ n ih =>
      rw [reachSet_succ, stepSet]
      intro b hb
      rcases Finset.mem_union.mp hb with h | h
      · exact ih h
      · rcases Finset.mem_biUnion.mp h with ⟨x, hx, hbx⟩
        rw [nodePool]
        apply Finset.mem_insert_of_mem
        rw [succs] at hbx
        rw [List.mem_toFinset] at hbx ⊢
        rcases List.mem_map.mp hbx with ⟨e, he, heq⟩
        exact List.mem_map.mpr ⟨e, (List.mem_filter.mp he).1, heq⟩

theorem reachSet_card_growth (edges : List (Nat × Nat)) (src : Nat) :
    ∀ n, (∀ k, k < n → stepSet edges (reachSet edges src k) ≠ reachSet edges src k) →
      n + 1 ≤ (reachSet edges src n).card := by
  intro n
  induction n with
  | zero =>
      intro _
      simp [reachSet]
  | succ n ih =>
      intro h
      have hsub : reachSet edges src n ⊆ reachSet edges src (n + 1) := by
        rw [reachSet_succ]
        exact subset_stepSet _ _
      have hne : reachSet edges src n ≠ reachSet edges src (n + 1) := by
        intro heq
        exact h n (Nat.lt_succ_self n) (by rw [← reachSet_succ]; exact heq.symm)
      have hss : reachSet edges src n ⊂ reachSet edges src (n + 1) :=
        Finset.ssubset_iff_subset_ne.mpr ⟨hsub, hne⟩
      have hcard := Finset.card_lt_card hss
      have hprev := ih (fun k hk => h k (Nat.lt_succ_of_lt hk))
      omega

theorem stepSet_saturated (edges : List (Nat × Nat)) (src : Nat) :
    stepSet edges (reachSet edges src (nodePool edges src).card)
      = reachSet edges src (nodePool edges src).card := by
  by_contra hne
  have hnofix : ∀ k, k < (nodePool edges src).card + 1 →
      stepSet edges (reachSet edges src k) ≠ reachSet edges src k := by
    intro k hk hfix
    have hstab : reachSet edges src (nodePool edges src).card = reachSet edges src k := by
      have hdecomp : (nodePool edges src).card = ((nodePool edges src).card - k) + k := by
        omega
      rw [reachSet, hdecomp, Function.iterate_add_apply]
      exact Function.iterate_fixed hfix ((nodePool edges src).card - k)
    rw [hstab] at hne
    exact hne hfix
  have hgrow := reachSet_card_growth edges src ((nodePool edges src).card + 1) hnofix
  have hsub := reachSet_subset_pool edges src ((nodePool edges src).card + 1)
  have hle := Finset.card_le_card hsub
  omega

theorem reachSet_complete (edges : List (Nat × Nat)) (src b : Nat)
    (h : Relation.ReflTransGen (edgeRel edges) src b) :
    b ∈ reachSet edges src (nodePool edges src).card := by
  induction h with
  | refl => exact mem_reachSet_self _ _ _
  | tail hab hrel ih =>
      rename_i c b'
      have hmem : b' ∈ stepSet edges (reachSet edges src (nodePool edges src).card) :=
        Finset.mem_union_right _ (Finset.mem_biUnion.mpr ⟨c, ih, mem_succs.mpr hrel⟩)
      rw [stepSet_saturated] at hmem
      exact hmem

theorem reachableB_iff (edges : List (Nat × Nat)) (a b : Nat) :
    reachableB edges a b = true ↔ Relation.ReflTransGen (edgeRel edges) a b := by
  rw [reachableB, decide_eq_true_eq]
  exact ⟨reachSet_sound edges a _ b, reachSet_complete edges a b⟩

/-- C5: a WaitFor(other) call that would create a cycle, i.e. one where
`other` already reaches `t` through existing wait-for edges, fails with the
CyclicDependency error kind and produces no modified graph; when no cycle
would be created the directed edge `t → other` is added.  The check is a
reachability computation at insertion time (`reachableB`), proven equivalent
to reflexive-transitive closure by `reachableB_iff`. -/
theorem c5_cyclic_dependency (edges : List (Nat × Nat)) (t other : Nat) :
    (Relation.ReflTransGen (edgeRel edges) other t →
      waitForInsert edges t other = Except.error ErrorKind.CyclicDependency) ∧
    (¬ Relation.ReflTransGen (edgeRel edges) other t →
      waitForInsert edges t other = Except.ok ((t, other) :: edges)) := by
  constructor
  · intro h
    rw [waitForInsert, if_pos ((reachableB_iff edges other t).mpr h)]
  · intro h
    rw [waitForInsert, if_neg (fun hb => h ((reachableB_iff edges other t).mp hb))]

theorem c5_cyclic_dependency_witness :
    waitForInsert [(2, 1)] 1 2 = Except.error ErrorKind.CyclicDependency ∧
    waitForInsert [] 1 2 = Except.ok [(1, 2)] :=
  ⟨(c5_cyclic_dependency [(2, 1)] 1 2).1 (Relation.ReflTransGen.single (by
      show ((2 : Nat), (1 : Nat)) ∈ [((2 : Nat), (1 : Nat))]
      decide)),
   (c5_cyclic_dependency [] 1 2).2 (by
      intro h
      rcases h.cases_head with heq | ⟨c, hstep, -⟩
      · exact absurd heq (by decide)
      · exact (List.not_mem_nil _) hstep)⟩

end Pebble
